import Mathlib

set_option maxHeartbeats 1000000

namespace SecureBridgeModel

/-- ASCII whitespace byte, as matched by the whitespace-stripping replace step
of `SecureBridge.initialize` (src/frontend/src/lib/secureBridge.ts line 26). -/
def isWsByte (c : Nat) : Bool :=
  c = 9 || c = 10 || c = 11 || c = 12 || c = 13 || c = 32

/-- The base64 alphabet used by `btoa`: sextet index 0..63 to ASCII code
(A-Z, a-z, 0-9, +, /). Inputs outside 0..63 are clamped to the last symbol. -/
def sextetToCode (s : Nat) : Nat :=
  if s < 26 then 65 + s
  else if s < 52 then 97 + (s - 26)
  else if s < 62 then 48 + (s - 52)
  else if s = 62 then 43
  else 47

/-- Inverse alphabet lookup used by `atob`: ASCII code to sextet index. -/
def codeToSextet (c : Nat) : Option Nat :=
  if 65 ≤ c ∧ c ≤ 90 then some (c - 65)
  else if 97 ≤ c ∧ c ≤ 122 then some (26 + (c - 97))
  else if 48 ≤ c ∧ c ≤ 57 then some (52 + (c - 48))
  else if c = 43 then some 62
  else if c = 47 then some 63
  else none

/-- `SecureBridge.arrayBufferToBase64` (secureBridge.ts lines 115-122): builds a
binary string from the bytes and applies `btoa`. Modelled directly as base64
encoding of the byte list; the output is the list of ASCII codes of the base64
string (61 is the code of the padding character). -/
def base64Encode : List Nat → List Nat
  | [] => []
  | [b1] => [sextetToCode (b1 / 4), sextetToCode (b1 % 4 * 16), 61, 61]
  | [b1, b2] =>
    [sextetToCode (b1 / 4), sextetToCode (b1 % 4 * 16 + b2 / 16),
     sextetToCode (b2 % 16 * 4), 61]
  | b1 :: b2 :: b3 :: rest =>
    sextetToCode (b1 / 4) :: sextetToCode (b1 % 4 * 16 + b2 / 16) ::
    sextetToCode (b2 % 16 * 4 + b3 / 64) :: sextetToCode (b3 % 64) ::
    base64Encode rest

/-- `SecureBridge.base64ToArrayBuffer` (secureBridge.ts lines 127-134): applies
`atob` and reads the char codes into a byte array. `atob` throws on malformed
input, modelled by `none`. -/
def base64Decode : List Nat → Option (List Nat)
  | [] => some []
  | c1 :: c2 :: c3 :: c4 :: rest =>
    match codeToSextet c1, codeToSextet c2 with
    | some s1, some s2 =>
      if c3 = 61 then
        if c4 = 61 ∧ rest = [] then some [s1 * 4 + s2 / 16] else none
      else
        match codeToSextet c3 with
        | some s3 =>
          if c4 = 61 then
            if rest = [] then some [s1 * 4 + s2 / 16, s2 % 16 * 16 + s3 / 4]
            else none
          else
            match codeToSextet c4 with
            | some s4 =>
              match base64Decode rest with
              | some ds =>
                some ((s1 * 4 + s2 / 16) :: (s2 % 16 * 16 + s3 / 4) ::
                      (s3 % 4 * 64 + s4) :: ds)
              | none => none
            | none => none
        | none => none
    | _, _ => none
  | _ => none

/-- Boolean test that `pat` begins the list (pattern match used to model the
first-occurrence semantics of JavaScript String.replace with a string pattern). -/
def beginsWith : List Nat → List Nat → Bool
  | [], _ => true
  | _ :: _, [] => false
  | p :: ps, c :: cs => p = c && beginsWith ps cs

/-- Remove the first occurrence of `pat`, modelling the JavaScript replace of a
plain string pattern by the empty string (secureBridge.ts lines 24-25). -/
def removeOnce (pat : List Nat) : List Nat → List Nat
  | [] => []
  | c :: rest =>
    if beginsWith pat (c :: rest) then (c :: rest).drop pat.length
    else c :: removeOnce pat rest

/-- ASCII codes of the string -----BEGIN PUBLIC KEY----- . -/
def pemHeader : List Nat :=
  [45, 45, 45, 45, 45, 66, 69, 71, 73, 78, 32, 80, 85, 66, 76, 73, 67, 32,
   75, 69, 89, 45, 45, 45, 45, 45]

/-- ASCII codes of the string -----END PUBLIC KEY----- . -/
def pemFooter : List Nat :=
  [45, 45, 45, 45, 45, 69, 78, 68, 32, 80, 85, 66, 76, 73, 67, 32,
   75, 69, 89, 45, 45, 45, 45, 45]

/-- The PEM-armor stripping of `SecureBridge.initialize` (secureBridge.ts lines
23-26): drop the header, the footer, then every whitespace character. -/
def stripPem (pem : List Nat) : List Nat :=
  (removeOnce pemFooter (removeOnce pemHeader pem)).filter (fun c => !isWsByte c)

/-- Little-endian numeric value of a byte list (used to model opaque key
material and randomness as numbers). -/
def fromBytes : List Nat → Nat
  | [] => 0
  | b :: rest => b + 256 * fromBytes rest

/-- Modelled from the spec: `crypto.subtle.importKey` (spki, RSA-OAEP,
SHA-256)` is a platform primitive, not repository code. The spec requires import
to fail exactly when the material is malformed or uses an unsupported scheme;
modelled as a recognizer of DER SPKI material (leading SEQUENCE byte 0x30 = 48)
yielding an opaque numeric key handle. -/
def importSpkiRsa (bytes : List Nat) : Option Nat :=
  match bytes with
  | 48 :: rest => some (fromBytes rest)
  | _ => none

/-- The `SecureBridge` instance state: the single private field `publicKey`
(secureBridge.ts lines 13-14), `none` until a successful initialize. -/
structure SecureBridge where
  publicKey : Option Nat
  deriving DecidableEq

/-- Error taxonomy of spec section 7 (the constructors used by the modelled
operations). -/
inductive SecError
  | initializationError
  | notInitializedError
  | encryptionError
  | authenticationError
  | unknownKeyVersionError
  | retiredKeyError
  | noActiveKeyError
  | outstandingReferencesError
  | malformedEnvelopeError
  | invalidTransitionError
  deriving DecidableEq

/-- `SecureBridge.initialize` (secureBridge.ts lines 20-44): strip the PEM armor,
base64-decode (`atob` may throw on malformed base64), import as an SPKI RSA-OAEP
key (may fail on malformed or unsupported material); any failure is caught and
rethrown as the initialization error, and the assignment to `this.publicKey`
never happens on failure. Returns the instance state after the call together
with the error, if any. -/
def initBridge (st : SecureBridge) (pem : List Nat) :
    SecureBridge × Option SecError :=
  match base64Decode (stripPem pem) with
  | none => (st, some .initializationError)
  | some bytes =>
    match importSpkiRsa bytes with
    | none => (st, some .initializationError)
    | some k => ({ publicKey := some k }, none)

/-- Modelled from the spec: the AES-256-GCM CTR keystream of
`crypto.subtle.encrypt` (a platform primitive, not repository code), idealized
as a byte stream determined by the symmetric key bytes, the 96-bit IV and the
stream position. -/
def ksByte (key iv : List Nat) (i : Nat) : Nat :=
  (fromBytes key + 2 * fromBytes iv + 5 * i + 3) % 256

/-- XOR a byte list against the keystream from position `i` on: both the
encryption and the decryption direction of GCM counter mode. -/
def xorKs (key iv : List Nat) : Nat → List Nat → List Nat
  | _, [] => []
  | i, b :: rest => (b ^^^ ksByte key iv i) :: xorKs key iv (i + 1) rest

/-- Sum of the bytes of a list. -/
def byteSum : List Nat → Nat
  | [] => 0
  | b :: rest => b + byteSum rest

/-- Stream of `n` bytes derived from the accumulator `a` (the byte expansion of
the idealized tag). -/
def tagWords (a : Nat) : Nat → List Nat
  | 0 => []
  | n + 1 => a % 256 :: tagWords (a + 7) n

/-- Modelled from the spec: the 128-bit (16-byte) GCM authentication tag of the
platform cipher (tagLength 128 at secureBridge.ts line 78), idealized as a keyed
checksum of the ciphertext under the key and IV. -/
def gcmTag (key iv ct : List Nat) : List Nat :=
  tagWords (fromBytes key + 3 * fromBytes iv + byteSum ct) 16

/-- Modelled from the spec: RSA-OAEP (SHA-256) wrapping of the exported
symmetric key under the public key handle (`crypto.subtle.encrypt` with
RSA-OAEP, a platform primitive), idealized as an invertible masking of the key
bytes by a pad derived from the key-pair parameter. The matching private half
uses the same parameter. -/
def oaepMask (k : Nat) : Nat → List Nat → List Nat
  | _, [] => []
  | i, b :: rest => (b ^^^ ((k + 11 * i) % 256)) :: oaepMask k (i + 1) rest

/-- Wrapping with the public half of a key pair. -/
def rsaWrap (pub : Nat) (keyBytes : List Nat) : List Nat := oaepMask pub 0 keyBytes

/-- Unwrapping with the private half of a key pair. -/
def rsaUnwrap (priv : Nat) (wrapped : List Nat) : List Nat := oaepMask priv 0 wrapped

/-- `EncryptedPayload` (secureBridge.ts lines 6-11): four base64 string fields,
each modelled as the list of ASCII codes of the string. -/
structure EncryptedPayload where
  encrypted_data : List Nat
  encrypted_key : List Nat
  iv : List Nat
  auth_tag : List Nat
  deriving DecidableEq

/-- `SecureBridge.encrypt` (secureBridge.ts lines 51-110). The fresh AES-256 key
(step 1, exported to 32 raw bytes at step 4) and the fresh 96-bit IV (step 2,
12 bytes) are drawn from the platform RNG; the draw is passed in explicitly as
`keyBytes` and `ivBytes`. Step 3 encrypts with AES-GCM and a 128-bit tag (the
platform call returns the ciphertext with the tag appended); lines 85-86 slice
the last 16 bytes off as the tag. Step 5 wraps the exported key with RSA-OAEP.
Step 6 base64-encodes the four payload fields. -/
def encrypt (st : SecureBridge) (keyBytes ivBytes data : List Nat) :
    Except SecError EncryptedPayload :=
  match st.publicKey with
  | none => .error .notInitializedError
  | some pub =>
    let ct := xorKs keyBytes ivBytes 0 data
    let encryptedData := ct ++ gcmTag keyBytes ivBytes ct
    let ciphertext := encryptedData.take (encryptedData.length - 16)
    let authTag := encryptedData.drop (encryptedData.length - 16)
    let encryptedKey := rsaWrap pub keyBytes
    .ok { encrypted_data := base64Encode ciphertext,
          encrypted_key := base64Encode encryptedKey,
          iv := base64Encode ivBytes,
          auth_tag := base64Encode authTag }

/-- Modelled from the spec: the backend `unseal(envelope, privateKeyMaterial)`
(spec sections 4.1 and 8) is server-side code not present under src/. It decodes
the four base64 fields, unwraps the symmetric key with the private key, verifies
the GCM tag, and only on success releases the decrypted plaintext; on tag
mismatch it fails with AuthenticationError and releases nothing. -/
def unsealEnvelope (priv : Nat) (p : EncryptedPayload) : Except SecError (List Nat) :=
  match base64Decode p.encrypted_data, base64Decode p.encrypted_key,
        base64Decode p.iv, base64Decode p.auth_tag with
  | some ct, some wrapped, some ivBytes, some tagBytes =>
    let keyBytes := rsaUnwrap priv wrapped
    if tagBytes = gcmTag keyBytes ivBytes ct then
      .ok (xorKs keyBytes ivBytes 0 ct)
    else .error .authenticationError
  | _, _, _, _ => .error .malformedEnvelopeError

/-- Key-version lifecycle states (spec section 3). -/
inductive KeyState
  | future
  | active_write
  | decrypt_only
  | retired
  deriving DecidableEq

/-- Modelled from the spec: the KeyRegistry (spec section 4.2) is backend code
not present under src/. Each entry carries the version identifier, its
lifecycle state, and the opaque key-material handle resolved through the
key-material collaborator. -/
structure RegEntry where
  ver : Nat
  state : KeyState
  material : Nat
  deriving DecidableEq

/-- The registry: its list of key-version entries. -/
structure KeyRegistry where
  entries : List RegEntry
  deriving DecidableEq

/-- Find the entry of a version identifier. -/
def lookupVer (r : KeyRegistry) (v : Nat) : Option RegEntry :=
  r.entries.find? (fun e => e.ver = v)

/-- Modelled from the spec: `resolveForRead` succeeds for active_write or
decrypt_only versions, fails with RetiredKeyError for retired versions and with
UnknownKeyVersionError for versions never registered (a future version has no
loaded material, reported like an unknown one). -/
def resolveForRead (r : KeyRegistry) (v : Nat) : Except SecError Nat :=
  match lookupVer r v with
  | none => .error .unknownKeyVersionError
  | some e =>
    match e.state with
    | .active_write => .ok e.material
    | .decrypt_only => .ok e.material
    | .retired => .error .retiredKeyError
    | .future => .error .unknownKeyVersionError

/-- Modelled from the spec: `resolveForWrite` returns the single active_write
version and its material; fails with NoActiveKeyError if none is configured. -/
def resolveForWrite (r : KeyRegistry) : Except SecError (Nat × Nat) :=
  match r.entries.find? (fun e => e.state = .active_write) with
  | some e => .ok (e.ver, e.material)
  | none => .error .noActiveKeyError

/-- Per-entry effect of the atomic promote/rollback update: version `v` becomes
active_write, any other active_write entry is demoted to decrypt_only, the rest
are untouched. -/
def promoteEntry (v : Nat) (x : RegEntry) : RegEntry :=
  if x.ver = v then { x with state := KeyState.active_write }
  else if x.state = KeyState.active_write then
    { x with state := KeyState.decrypt_only }
  else x

/-- Per-entry effect of the retire update: version `v` becomes retired, the
rest are untouched. -/
def retireEntry (v : Nat) (x : RegEntry) : RegEntry :=
  if x.ver = v then { x with state := KeyState.retired } else x

/-- Modelled from the spec: `promote(version)` moves a future version to
active_write, simultaneously demoting any prior active_write to decrypt_only,
in one atomic registry update; invalid moves are rejected. -/
def promote (r : KeyRegistry) (v : Nat) : Except SecError KeyRegistry :=
  match lookupVer r v with
  | none => .error .unknownKeyVersionError
  | some e =>
    match e.state with
    | .future => .ok ⟨r.entries.map (promoteEntry v)⟩
    | _ => .error .invalidTransitionError

/-- Modelled from the spec: `retire(version)` moves decrypt_only to retired;
fails with OutstandingReferencesError unless the caller supplies evidence that
no live envelope still references the version (or forces retirement). -/
def retire (r : KeyRegistry) (v : Nat) (noRefsEvidence : Bool) :
    Except SecError KeyRegistry :=
  match lookupVer r v with
  | none => .error .unknownKeyVersionError
  | some e =>
    match e.state with
    | .decrypt_only =>
      if noRefsEvidence then .ok ⟨r.entries.map (retireEntry v)⟩
      else .error .outstandingReferencesError
    | _ => .error .invalidTransitionError

/-- Modelled from the spec: the explicit operator-invoked rollback that
re-promotes a decrypt_only version to active_write, demoting any prior
active_write. -/
def rollback (r : KeyRegistry) (v : Nat) : Except SecError KeyRegistry :=
  match lookupVer r v with
  | none => .error .unknownKeyVersionError
  | some e =>
    match e.state with
    | .decrypt_only => .ok ⟨r.entries.map (promoteEntry v)⟩
    | _ => .error .invalidTransitionError

/-- Modelled from the spec: provisioning a new key version (created out-of-band,
spec section 3 Lifecycle), registered in state future with its material. -/
def provision (r : KeyRegistry) (v m : Nat) : Except SecError KeyRegistry :=
  match lookupVer r v with
  | some _ => .error .invalidTransitionError
  | none => .ok ⟨r.entries ++ [⟨v, .future, m⟩]⟩

/-- One registry transition: any of the operations succeeding. -/
inductive RegStep : KeyRegistry → KeyRegistry → Prop
  | stepProvision {r r1 : KeyRegistry} {v m : Nat} :
      provision r v m = .ok r1 → RegStep r r1
  | stepPromote {r r1 : KeyRegistry} {v : Nat} :
      promote r v = .ok r1 → RegStep r r1
  | stepRetire {r r1 : KeyRegistry} {v : Nat} {b : Bool} :
      retire r v b = .ok r1 → RegStep r r1
  | stepRollback {r r1 : KeyRegistry} {v : Nat} :
      rollback r v = .ok r1 → RegStep r r1

/-- Registry states reachable from the empty registry. -/
inductive RegReachable : KeyRegistry → Prop
  | empty : RegReachable ⟨[]⟩
  | step {r r1 : KeyRegistry} : RegReachable r → RegStep r r1 → RegReachable r1

/-- Number of versions in state active_write. -/
def countActive (r : KeyRegistry) : Nat :=
  r.entries.countP (fun e => e.state = .active_write)

/-- Forward position of a lifecycle state along
future, active_write, decrypt_only, retired. -/
def rank : KeyState → Nat
  | .future => 0
  | .active_write => 1
  | .decrypt_only => 2
  | .retired => 3

/-- The inductive registry invariant: version identifiers are unique and at
most one version is active_write. -/
def RegInv (r : KeyRegistry) : Prop :=
  (r.entries.map RegEntry.ver).Nodup ∧ countActive r ≤ 1

/-- A stored record: the envelope payload plus versioned metadata (spec section
3 RecordEnvelope; part3.md data model). -/
structure StoredRecord where
  payload : EncryptedPayload
  dek_version : Nat
  reencrypted_at : Option Nat
  migration_batch_id : Option Nat
  deriving DecidableEq

/-- The persistence collaborator state: records keyed by identifier. -/
structure Store where
  recs : List (Nat × StoredRecord)
  deriving DecidableEq

/-- Point read of a record by identifier. -/
def lookupRec (s : Store) (rid : Nat) : Option StoredRecord :=
  (s.recs.find? (fun p => p.1 = rid)).map (fun p => p.2)

/-- Modelled from the spec: the conditional write of the persistence
collaborator (spec sections 4.3 and 6): replace the versioned fields of the
record only if its stored version still equals the expected source version;
returns the new store and the number of rows affected. -/
def condWrite (s : Store) (rid expectedVer : Nat) (newRec : StoredRecord) :
    Store × Nat :=
  match s.recs.find? (fun p => p.1 = rid) with
  | some pr =>
    if pr.2.dek_version = expectedVer then
      (⟨s.recs.map (fun p => if p.1 = rid then (p.1, newRec) else p)⟩, 1)
    else (s, 0)
  | none => (s, 0)

/-- Per-record outcome of the migration worker. -/
inductive MigOutcome
  | migrated
  | conflictSkipped
  | failed
  deriving DecidableEq

/-- Counts reported to the observability collaborator per batch. -/
structure WorkerStats where
  migrated : Nat
  conflicts : Nat
  failures : Nat
  deriving DecidableEq

/-- Add one outcome to the batch counters. -/
def bumpStats (o : MigOutcome) (st : WorkerStats) : WorkerStats :=
  match o with
  | .migrated => { st with migrated := st.migrated + 1 }
  | .conflictSkipped => { st with conflicts := st.conflicts + 1 }
  | .failed => { st with failures := st.failures + 1 }

/-- Modelled from the spec: one record of a ReencryptionWorker batch (spec
section 4.3, steps 2-4): resolve the key of the version the snapshot carries
and unseal; resolve the active_write key and reseal with a fresh key and nonce
draw; conditionally write back, gated on the stored version still being the
source version. Zero rows affected is treated as success, not an error (another
run already migrated the record); a failure while unsealing or resealing leaves
the store untouched and reports `failed` for this record only. -/
def processOne (reg : KeyRegistry) (srcVer batchId now : Nat)
    (rand : List Nat × List Nat) (s : Store) (rec : Nat × StoredRecord) :
    Store × MigOutcome :=
  match resolveForRead reg rec.2.dek_version with
  | .error _ => (s, .failed)
  | .ok m =>
    match unsealEnvelope m rec.2.payload with
    | .error _ => (s, .failed)
    | .ok pt =>
      match resolveForWrite reg with
      | .error _ => (s, .failed)
      | .ok wvm =>
        match encrypt ⟨some wvm.2⟩ rand.1 rand.2 pt with
        | .error _ => (s, .failed)
        | .ok p1 =>
          let res := condWrite s rec.1 srcVer ⟨p1, wvm.1, some now, some batchId⟩
          if res.2 = 0 then (res.1, .conflictSkipped) else (res.1, .migrated)

/-- Modelled from the spec: one worker invocation over a selected batch (spec
section 4.3): each selected record snapshot is processed in order with its own
randomness draw; no single-record outcome aborts the rest of the batch. -/
def runBatch (reg : KeyRegistry) (srcVer batchId now : Nat) (s : Store) :
    List ((Nat × StoredRecord) × (List Nat × List Nat)) → Store × WorkerStats
  | [] => (s, ⟨0, 0, 0⟩)
  | (rec, rand) :: rest =>
    let stepRes := processOne reg srcVer batchId now rand s rec
    let tail := runBatch reg srcVer batchId now stepRes.1 rest
    (tail.1, bumpStats stepRes.2 tail.2)

/-- An operation addressed to one SecureBridge instance. -/
inductive BridgeOp
  | initOp (pem : List Nat)
  | encOp (keyBytes ivBytes data : List Nat)

/-- Instance-state transition of one operation: initialize may set the key;
encrypt reads but never mutates instance state. -/
def applyOp (st : SecureBridge) : BridgeOp → SecureBridge
  | .initOp pem => (initBridge st pem).1
  | .encOp _ _ _ => st

/-- Run a sequence of operations against one instance. -/
def runOps (st : SecureBridge) : List BridgeOp → SecureBridge
  | [] => st
  | op :: rest => runOps (applyOp st op) rest

/-- An operation in a world of two independent instances, tagged by which
instance it is addressed to. -/
inductive WorldOp
  | toFst (op : BridgeOp)
  | toSnd (op : BridgeOp)

/-- Run an interleaved trace against the pair of instances. -/
def runWorld (w : SecureBridge × SecureBridge) :
    List WorldOp → SecureBridge × SecureBridge
  | [] => w
  | .toFst op :: rest => runWorld (applyOp w.1 op, w.2) rest
  | .toSnd op :: rest => runWorld (w.1, applyOp w.2 op) rest

/-- The sub-sequence of a trace addressed to the first instance. -/
def projFst : List WorldOp → List BridgeOp
  | [] => []
  | .toFst op :: rest => op :: projFst rest
  | .toSnd _ :: rest => projFst rest

/-- The sub-sequence of a trace addressed to the second instance. -/
def projSnd : List WorldOp → List BridgeOp
  | [] => []
  | .toFst _ :: rest => projSnd rest
  | .toSnd op :: rest => op :: projSnd rest

deriving instance DecidableEq for Except

/-- Replace byte `j` of `l` by the same byte with bit `b` flipped. -/
def flipBit (l : List Nat) (j b : Nat) : List Nat :=
  l.set j (l.getD j 0 ^^^ 2 ^ b)

/-- Concrete 32-byte symmetric-key draw used by witnesses. -/
def wKey : List Nat := List.replicate 32 9

/-- Concrete 12-byte IV draw used by witnesses. -/
def wIv : List Nat := List.replicate 12 4

/-- Concrete plaintext bytes used by witnesses. -/
def wData : List Nat := [49, 50, 51]

/-- Concrete registry used by witnesses: version 1 is decrypt_only with
material handle 5. -/
def wReg : KeyRegistry := ⟨[⟨1, KeyState.decrypt_only, 5⟩]⟩

/-- The payload produced by the witness encryption call. -/
def wPayload : EncryptedPayload :=
  match encrypt ⟨some 5⟩ wKey wIv wData with
  | .ok p => p
  | .error _ => ⟨[], [], [], []⟩

/-- A well-formed PEM input used by witnesses: armor around the base64 of the
two-byte SPKI body 48, 1. -/
def wPem : List Nat :=
  pemHeader ++ [10] ++ base64Encode [48, 1] ++ [10] ++ pemFooter

/-- Registry after provisioning version 1 (witness chain). -/
def wRegA : KeyRegistry := ⟨[⟨1, KeyState.future, 5⟩]⟩

/-- Registry after promoting version 1 (witness chain). -/
def wRegB : KeyRegistry := ⟨[⟨1, KeyState.active_write, 5⟩]⟩

/-- Registry after provisioning version 2 (witness chain). -/
def wRegC : KeyRegistry :=
  ⟨[⟨1, KeyState.active_write, 5⟩, ⟨2, KeyState.future, 6⟩]⟩

/-- Registry after promoting version 2 (witness chain). -/
def wRegD : KeyRegistry :=
  ⟨[⟨1, KeyState.decrypt_only, 5⟩, ⟨2, KeyState.active_write, 6⟩]⟩

/-- A stored record with a corrupted (empty-fields) envelope, used to witness
the worker failure path. -/
def wRec0 : StoredRecord := ⟨⟨[], [], [], []⟩, 1, none, none⟩

/-- One-record store used by the worker witnesses. -/
def wStore : Store := ⟨[(1, wRec0)]⟩

/-- First 32-byte key draw of the two-run witness. -/
def c3Key1 : List Nat := List.replicate 32 0

/-- Second 32-byte key draw of the two-run witness. -/
def c3Key2 : List Nat := 1 :: List.replicate 31 0

/-- First 12-byte IV draw of the two-run witness. -/
def c3Iv1 : List Nat := List.replicate 12 0

/-- Second 12-byte IV draw of the two-run witness. -/
def c3Iv2 : List Nat := 1 :: List.replicate 11 0

/-- Payload of the first run of the two-run witness. -/
def wPayloadA : EncryptedPayload :=
  match encrypt ⟨some 5⟩ c3Key1 c3Iv1 wData with
  | .ok p => p
  | .error _ => ⟨[], [], [], []⟩

/-- Payload of the second run of the two-run witness. -/
def wPayloadB : EncryptedPayload :=
  match encrypt ⟨some 5⟩ c3Key2 c3Iv2 wData with
  | .ok p => p
  | .error _ => ⟨[], [], [], []⟩

theorem codeToSextet_sextetToCode (s : Nat) (h : s < 64) :
    codeToSextet (sextetToCode s) = some s := by
  unfold sextetToCode codeToSextet
  split_ifs <;> first
    | (simp only [Option.some.injEq]; omega)
    | (exfalso; omega)

theorem sextetToCode_ne_61 (s : Nat) : sextetToCode s ≠ 61 := by
  unfold sextetToCode
  split_ifs <;> omega

/-- Round trip of the two base64 helpers on byte lists. -/
theorem base64_roundtrip (l : List Nat) (h : ∀ x ∈ l, x < 256) :
    base64Decode (base64Encode l) = some l := by
  induction l using base64Encode.induct with
  | case1 => rfl
  | case2 b1 =>
    have hb1 : b1 < 256 := h b1 (by simp)
    simp only [base64Encode, base64Decode,
      codeToSextet_sextetToCode (b1 / 4) (by omega),
      codeToSextet_sextetToCode (b1 % 4 * 16) (by omega)]
    simp only [if_pos rfl, and_self, if_pos, Option.some.injEq, List.cons.injEq,
      and_true]
    omega
  | case3 b1 b2 =>
    have hb1 : b1 < 256 := h b1 (by simp)
    have hb2 : b2 < 256 := h b2 (by simp)
    simp only [base64Encode, base64Decode,
      codeToSextet_sextetToCode (b1 / 4) (by omega),
      codeToSextet_sextetToCode (b1 % 4 * 16 + b2 / 16) (by omega),
      codeToSextet_sextetToCode (b2 % 16 * 4) (by omega),
      if_neg (sextetToCode_ne_61 (b2 % 16 * 4)), if_pos rfl, if_pos]
    simp only [Option.some.injEq, List.cons.injEq, and_true]
    omega
  | case4 b1 b2 b3 rest ih =>
    have hb1 : b1 < 256 := h b1 (by simp)
    have hb2 : b2 < 256 := h b2 (by simp)
    have hb3 : b3 < 256 := h b3 (by simp)
    have hrest : base64Decode (base64Encode rest) = some rest := by
      refine ih ?_
      intro x hx
      exact h x (by simp [hx])
    simp only [base64Encode, base64Decode,
      codeToSextet_sextetToCode (b1 / 4) (by omega),
      codeToSextet_sextetToCode (b1 % 4 * 16 + b2 / 16) (by omega),
      codeToSextet_sextetToCode (b2 % 16 * 4 + b3 / 64) (by omega),
      codeToSextet_sextetToCode (b3 % 64) (by omega),
      if_neg (sextetToCode_ne_61 (b2 % 16 * 4 + b3 / 64)),
      if_neg (sextetToCode_ne_61 (b3 % 64)), hrest]
    simp only [Option.some.injEq, List.cons.injEq, and_true]
    omega

/-- The base64 encoder is injective on byte lists. -/
theorem base64Encode_inj {a b : List Nat} (ha : ∀ x ∈ a, x < 256)
    (hb : ∀ x ∈ b, x < 256) (h : base64Encode a = base64Encode b) : a = b := by
  have h1 := base64_roundtrip a ha
  rw [h, base64_roundtrip b hb] at h1
  exact (Option.some.inj h1).symm

theorem xor_byte_lt {a b : Nat} (ha : a < 256) (hb : b < 256) : a ^^^ b < 256 := by
  have h8 : (256 : Nat) = 2 ^ 8 := by norm_num
  rw [h8] at ha hb ⊢
  exact Nat.xor_lt_two_pow ha hb

theorem ksByte_lt (key iv : List Nat) (i : Nat) : ksByte key iv i < 256 :=
  Nat.mod_lt _ (by norm_num)

theorem xorKs_xorKs (key iv : List Nat) (i : Nat) (l : List Nat) :
    xorKs key iv i (xorKs key iv i l) = l := by
  induction l generalizing i with
  | nil => rfl
  | cons b rest ih => simp [xorKs, Nat.xor_cancel_right, ih]

theorem xorKs_length (key iv : List Nat) (i : Nat) (l : List Nat) :
    (xorKs key iv i l).length = l.length := by
  induction l generalizing i with
  | nil => rfl
  | cons b rest ih => simp [xorKs, ih]

theorem xorKs_valid {l : List Nat} (key iv : List Nat) (i : Nat)
    (h : ∀ x ∈ l, x < 256) : ∀ x ∈ xorKs key iv i l, x < 256 := by
  induction l generalizing i with
  | nil => simp [xorKs]
  | cons b rest ih =>
    intro x hx
    simp only [xorKs, List.mem_cons] at hx
    rcases hx with hx | hx
    · subst hx
      exact xor_byte_lt (h b (by simp)) (ksByte_lt key iv i)
    · exact ih (i + 1) (fun y hy => h y (by simp [hy])) x hx

theorem tagWords_length (a n : Nat) : (tagWords a n).length = n := by
  induction n generalizing a with
  | zero => rfl
  | succ n ih => simp [tagWords, ih]

theorem tagWords_valid (a n : Nat) : ∀ x ∈ tagWords a n, x < 256 := by
  induction n generalizing a with
  | zero => simp [tagWords]
  | succ n ih =>
    intro x hx
    simp only [tagWords, List.mem_cons] at hx
    rcases hx with hx | hx
    · subst hx
      exact Nat.mod_lt _ (by norm_num)
    · exact ih (a + 7) x hx

theorem gcmTag_length (key iv ct : List Nat) : (gcmTag key iv ct).length = 16 :=
  tagWords_length _ 16

theorem gcmTag_valid (key iv ct : List Nat) : ∀ x ∈ gcmTag key iv ct, x < 256 :=
  tagWords_valid _ 16

theorem oaepMask_oaepMask (k : Nat) (i : Nat) (l : List Nat) :
    oaepMask k i (oaepMask k i l) = l := by
  induction l generalizing i with
  | nil => rfl
  | cons b rest ih => simp [oaepMask, Nat.xor_cancel_right, ih]

theorem oaepMask_valid {l : List Nat} (k i : Nat) (h : ∀ x ∈ l, x < 256) :
    ∀ x ∈ oaepMask k i l, x < 256 := by
  induction l generalizing i with
  | nil => simp [oaepMask]
  | cons b rest ih =>
    intro x hx
    simp only [oaepMask, List.mem_cons] at hx
    rcases hx with hx | hx
    · subst hx
      exact xor_byte_lt (h b (by simp)) (Nat.mod_lt _ (by norm_num))
    · exact ih (i + 1) (fun y hy => h y (by simp [hy])) x hx

theorem oaepMask_inj {k i : Nat} {a b : List Nat}
    (h : oaepMask k i a = oaepMask k i b) : a = b := by
  have := congrArg (oaepMask k i) h
  rwa [oaepMask_oaepMask, oaepMask_oaepMask] at this

theorem rsaUnwrap_rsaWrap (k : Nat) (l : List Nat) :
    rsaUnwrap k (rsaWrap k l) = l :=
  oaepMask_oaepMask k 0 l

theorem slice_take_ct (ct tg : List Nat) (h : tg.length = 16) :
    (ct ++ tg).take ((ct ++ tg).length - 16) = ct := by
  have hlen : (ct ++ tg).length - 16 = ct.length := by
    simp [List.length_append, h]
  rw [hlen]
  exact List.take_left ct tg

theorem slice_drop_tag (ct tg : List Nat) (h : tg.length = 16) :
    (ct ++ tg).drop ((ct ++ tg).length - 16) = tg := by
  have hlen : (ct ++ tg).length - 16 = ct.length := by
    simp [List.length_append, h]
  rw [hlen]
  exact List.drop_left ct tg

/-- C1: for every plaintext P and every key version V currently resolvable for
read, unsealing the envelope produced by sealing P under the key pair of V returns
exactly P (round trip of seal/encrypt followed by unseal). -/
theorem c1_seal_unseal_roundtrip (reg : KeyRegistry) (v m : Nat)
    (keyBytes ivBytes data : List Nat) (p : EncryptedPayload)
    (_hres : resolveForRead reg v = .ok m)
    (hkv : ∀ x ∈ keyBytes, x < 256) (hiv : ∀ x ∈ ivBytes, x < 256)
    (hd : ∀ x ∈ data, x < 256)
    (henc : encrypt ⟨some m⟩ keyBytes ivBytes data = .ok p) :
    unsealEnvelope m p = .ok data := by
  simp only [encrypt] at henc
  injection henc with hp
  subst hp
  have hctv : ∀ x ∈ xorKs keyBytes ivBytes 0 data, x < 256 :=
    xorKs_valid keyBytes ivBytes 0 hd
  have htgv := gcmTag_valid keyBytes ivBytes (xorKs keyBytes ivBytes 0 data)
  have hwrv : ∀ x ∈ rsaWrap m keyBytes, x < 256 := oaepMask_valid m 0 hkv
  rw [slice_take_ct _ _ (gcmTag_length keyBytes ivBytes _),
      slice_drop_tag _ _ (gcmTag_length keyBytes ivBytes _)]
  simp only [unsealEnvelope, base64_roundtrip _ hctv, base64_roundtrip _ htgv,
    base64_roundtrip _ hwrv, base64_roundtrip _ hiv, rsaUnwrap_rsaWrap,
    eq_self_iff_true, if_true]
  rw [xorKs_xorKs]

/-- Witness for C1 at a concrete registry, key pair, randomness draw, and
plaintext. -/
theorem c1_seal_unseal_roundtrip_witness : unsealEnvelope 5 wPayload = .ok wData :=
  c1_seal_unseal_roundtrip wReg 1 5 wKey wIv wData wPayload (by decide)
    (by decide) (by decide) (by decide) (by decide)

/-- C4: every successful seal is structured as the plaintext encrypted under the
authenticated symmetric cipher with a 128-bit tag, with `encrypted_data`
decoding to the ciphertext without the tag, `auth_tag` decoding to exactly the
16-byte tag, `iv` decoding to the nonce, and `encrypted_key` decoding to the
RSA-OAEP wrap of the symmetric key under the public key. -/
theorem c4_payload_structure (pub : Nat) (keyBytes ivBytes data : List Nat)
    (p : EncryptedPayload)
    (hkv : ∀ x ∈ keyBytes, x < 256) (hiv : ∀ x ∈ ivBytes, x < 256)
    (hd : ∀ x ∈ data, x < 256)
    (henc : encrypt ⟨some pub⟩ keyBytes ivBytes data = .ok p) :
    base64Decode p.encrypted_data = some (xorKs keyBytes ivBytes 0 data)
    ∧ base64Decode p.auth_tag =
        some (gcmTag keyBytes ivBytes (xorKs keyBytes ivBytes 0 data))
    ∧ (gcmTag keyBytes ivBytes (xorKs keyBytes ivBytes 0 data)).length = 16
    ∧ base64Decode p.encrypted_key = some (rsaWrap pub keyBytes)
    ∧ base64Decode p.iv = some ivBytes := by
  simp only [encrypt] at henc
  injection henc with hp
  subst hp
  dsimp only
  rw [slice_take_ct _ _ (gcmTag_length keyBytes ivBytes _),
      slice_drop_tag _ _ (gcmTag_length keyBytes ivBytes _)]
  exact ⟨base64_roundtrip _ (xorKs_valid keyBytes ivBytes 0 hd),
    base64_roundtrip _ (gcmTag_valid keyBytes ivBytes _),
    gcmTag_length keyBytes ivBytes _,
    base64_roundtrip _ (oaepMask_valid pub 0 hkv),
    base64_roundtrip _ hiv⟩

/-- Witness for C4 at the concrete witness seal. -/
theorem c4_payload_structure_witness :
    base64Decode wPayload.encrypted_data = some (xorKs wKey wIv 0 wData)
    ∧ base64Decode wPayload.auth_tag =
        some (gcmTag wKey wIv (xorKs wKey wIv 0 wData))
    ∧ (gcmTag wKey wIv (xorKs wKey wIv 0 wData)).length = 16
    ∧ base64Decode wPayload.encrypted_key = some (rsaWrap 5 wKey)
    ∧ base64Decode wPayload.iv = some wIv :=
  c4_payload_structure 5 wKey wIv wData wPayload (by decide) (by decide)
    (by decide) (by decide)

theorem pow_lt_256 {b : Nat} (hb : b < 8) : 2 ^ b < 256 := by
  have h1 : (2 : Nat) ^ b ≤ 2 ^ 7 := Nat.pow_le_pow_right (by norm_num) (by omega)
  have h2 : (2 : Nat) ^ 7 = 128 := by norm_num
  omega

theorem xor_pow_ne (x b : Nat) : x ^^^ 2 ^ b ≠ x := by
  intro h
  have h1 := congrArg (fun y => x ^^^ y) h
  simp only [Nat.xor_cancel_left, Nat.xor_self] at h1
  exact absurd h1 (Nat.pos_iff_ne_zero.mp (Nat.pos_pow_of_pos b (by norm_num)))

theorem getD_set_self (l : List Nat) (j y : Nat) (hj : j < l.length) :
    (l.set j y).getD j 0 = y := by
  induction l generalizing j with
  | nil => simp at hj
  | cons b rest ih =>
    cases j with
    | zero => simp
    | succ j =>
      simp only [List.set, List.getD_cons_succ]
      exact ih j (by simpa using hj)

theorem getD_mem_lt {l : List Nat} {j : Nat} (h : ∀ x ∈ l, x < 256)
    (hj : j < l.length) : l.getD j 0 < 256 := by
  induction l generalizing j with
  | nil => simp at hj
  | cons b rest ih =>
    cases j with
    | zero => exact h b (by simp)
    | succ j =>
      simp only [List.getD_cons_succ]
      exact ih (fun x hx => h x (by simp [hx])) (by simpa using hj)

theorem byteSum_set (l : List Nat) (j x : Nat) (hj : j < l.length) :
    byteSum (l.set j x) + l.getD j 0 = byteSum l + x := by
  induction l generalizing j with
  | nil => simp at hj
  | cons b rest ih =>
    cases j with
    | zero => simp [byteSum]; omega
    | succ j =>
      simp only [List.set, byteSum, List.getD_cons_succ]
      have := ih j (by simpa using hj)
      omega

theorem flipBit_valid {l : List Nat} {j b : Nat} (h : ∀ x ∈ l, x < 256)
    (hj : j < l.length) (hb : b < 8) : ∀ x ∈ flipBit l j b, x < 256 := by
  intro x hx
  rcases List.mem_or_eq_of_mem_set hx with hx | hx
  · exact h x hx
  · subst hx
    exact xor_byte_lt (getD_mem_lt h hj) (pow_lt_256 hb)

theorem flipBit_length (l : List Nat) (j b : Nat) :
    (flipBit l j b).length = l.length := by
  simp [flipBit]

/-- Flipping one bit of one byte changes the idealized tag: the head byte of the
keyed checksum differs. -/
theorem gcmTag_flip_ne (key iv ct : List Nat) (j b : Nat)
    (hct : ∀ x ∈ ct, x < 256) (hj : j < ct.length) (hb : b < 8) :
    gcmTag key iv (flipBit ct j b) ≠ gcmTag key iv ct := by
  intro heq
  simp only [gcmTag, tagWords, List.cons.injEq] at heq
  have hhead := heq.1
  have hsum := byteSum_set ct j (ct.getD j 0 ^^^ 2 ^ b) hj
  have hx : ct.getD j 0 < 256 := getD_mem_lt hct hj
  have hy : ct.getD j 0 ^^^ 2 ^ b < 256 := xor_byte_lt hx (pow_lt_256 hb)
  have hne : ct.getD j 0 ^^^ 2 ^ b ≠ ct.getD j 0 := xor_pow_ne _ b
  simp only [flipBit] at hhead
  omega

/-- C2: flipping any single bit of the ciphertext or of the authentication tag
makes unseal fail with AuthenticationError; no plaintext is released on tag
mismatch. -/
theorem c2_tamper_detection (pub : Nat) (keyBytes ivBytes data : List Nat)
    (p : EncryptedPayload) (j b : Nat)
    (hkv : ∀ x ∈ keyBytes, x < 256) (hiv : ∀ x ∈ ivBytes, x < 256)
    (hd : ∀ x ∈ data, x < 256) (hb : b < 8)
    (henc : encrypt ⟨some pub⟩ keyBytes ivBytes data = .ok p) :
    (j < (xorKs keyBytes ivBytes 0 data).length →
      unsealEnvelope pub
        { p with encrypted_data :=
            base64Encode (flipBit (xorKs keyBytes ivBytes 0 data) j b) } =
        .error .authenticationError)
    ∧ (j < 16 →
      unsealEnvelope pub
        { p with auth_tag :=
            (base64Encode
              (flipBit (gcmTag keyBytes ivBytes (xorKs keyBytes ivBytes 0 data))
                j b)) } =
        .error .authenticationError) := by
  simp only [encrypt] at henc
  injection henc with hp
  subst hp
  have hctv : ∀ x ∈ xorKs keyBytes ivBytes 0 data, x < 256 :=
    xorKs_valid keyBytes ivBytes 0 hd
  have htgv := gcmTag_valid keyBytes ivBytes (xorKs keyBytes ivBytes 0 data)
  have hwrv : ∀ x ∈ rsaWrap pub keyBytes, x < 256 := oaepMask_valid pub 0 hkv
  constructor
  · intro hj
    dsimp only
    rw [slice_drop_tag _ _ (gcmTag_length keyBytes ivBytes _)]
    have hflipv := flipBit_valid hctv hj hb
    simp only [unsealEnvelope, base64_roundtrip _ hflipv,
      base64_roundtrip _ htgv, base64_roundtrip _ hwrv, base64_roundtrip _ hiv,
      rsaUnwrap_rsaWrap]
    rw [if_neg]
    intro heq
    exact gcmTag_flip_ne keyBytes ivBytes _ j b hctv hj hb heq.symm
  · intro hj
    dsimp only
    rw [slice_take_ct _ _ (gcmTag_length keyBytes ivBytes _)]
    have hjlen : j < (gcmTag keyBytes ivBytes (xorKs keyBytes ivBytes 0 data)).length := by
      rw [gcmTag_length]
      exact hj
    have hflipv := flipBit_valid htgv hjlen hb
    simp only [unsealEnvelope, base64_roundtrip _ hflipv,
      base64_roundtrip _ hctv, base64_roundtrip _ hwrv, base64_roundtrip _ hiv,
      rsaUnwrap_rsaWrap]
    rw [if_neg]
    intro heq
    have hgd := congrArg (fun l => l.getD j 0) heq
    simp only [flipBit, getD_set_self _ _ _ hjlen] at hgd
    exact xor_pow_ne _ b hgd

/-- Witness for C2: both tamper modes at concrete inputs (bit 0 of byte 0). -/
theorem c2_tamper_detection_witness :
    unsealEnvelope 5
      { wPayload with encrypted_data :=
          base64Encode (flipBit (xorKs wKey wIv 0 wData) 0 0) } =
      .error .authenticationError
    ∧ unsealEnvelope 5
      { wPayload with auth_tag :=
          base64Encode (flipBit (gcmTag wKey wIv (xorKs wKey wIv 0 wData)) 0 0) } =
      .error .authenticationError :=
  ⟨(c2_tamper_detection 5 wKey wIv wData wPayload 0 0 (by decide) (by decide)
      (by decide) (by decide) (by decide)).1 (by decide),
   (c2_tamper_detection 5 wKey wIv wData wPayload 0 0 (by decide) (by decide)
      (by decide) (by decide) (by decide)).2 (by decide)⟩

/-- Counterexample to C3 as stated: two seal calls on the empty plaintext with
distinct key draws and distinct nonce draws return the same (empty) ciphertext
field, so the payloads do not differ in ciphertext. -/
theorem c3_counterexample :
    c3Key1 ≠ c3Key2 ∧ c3Iv1 ≠ c3Iv2
    ∧ Except.map EncryptedPayload.encrypted_data
        (encrypt ⟨some 5⟩ c3Key1 c3Iv1 []) =
      Except.map EncryptedPayload.encrypted_data
        (encrypt ⟨some 5⟩ c3Key2 c3Iv2 []) :=
  ⟨by decide, by decide, by decide⟩

/-- C3 amended: two seal calls whose RNG draws differ in the symmetric key and
in the nonce return payloads that differ in the nonce (iv) field and in the
wrapped key (encrypted_key) field; the ciphertext field is not guaranteed to
differ for every pair of distinct draws (for the empty plaintext it always
coincides). -/
theorem c3_fresh_draws_distinct_fields (pub : Nat)
    (key1 key2 iv1 iv2 data : List Nat) (p1 p2 : EncryptedPayload)
    (hk1 : ∀ x ∈ key1, x < 256) (hk2 : ∀ x ∈ key2, x < 256)
    (hv1 : ∀ x ∈ iv1, x < 256) (hv2 : ∀ x ∈ iv2, x < 256)
    (hkne : key1 ≠ key2) (hvne : iv1 ≠ iv2)
    (h1 : encrypt ⟨some pub⟩ key1 iv1 data = .ok p1)
    (h2 : encrypt ⟨some pub⟩ key2 iv2 data = .ok p2) :
    p1.iv ≠ p2.iv ∧ p1.encrypted_key ≠ p2.encrypted_key := by
  simp only [encrypt] at h1 h2
  injection h1 with hp1
  injection h2 with hp2
  subst hp1
  subst hp2
  dsimp only
  constructor
  · intro h
    exact hvne (base64Encode_inj hv1 hv2 h)
  · intro h
    have hw := base64Encode_inj (oaepMask_valid pub 0 hk1)
      (oaepMask_valid pub 0 hk2) h
    exact hkne (oaepMask_inj hw)

/-- Witness for the amended C3 at the concrete two-run draws. -/
theorem c3_fresh_draws_distinct_fields_witness :
    wPayloadA.iv ≠ wPayloadB.iv
    ∧ wPayloadA.encrypted_key ≠ wPayloadB.encrypted_key :=
  c3_fresh_draws_distinct_fields 5 c3Key1 c3Key2 c3Iv1 c3Iv2 wData
    wPayloadA wPayloadB (by decide) (by decide) (by decide) (by decide)
    (by decide) (by decide) (by decide) (by decide)

/-- C5: encrypt fails with the not-initialized error exactly when the instance
holds no imported public key, i.e. when it is called before a successful
initialize; once initialize has succeeded, encrypt never raises that error. -/
theorem c5_not_initialized_iff (st st0 st1 : SecureBridge)
    (pem keyBytes ivBytes data kb2 iv2 d2 : List Nat) :
    ((encrypt st keyBytes ivBytes data = .error .notInitializedError) ↔
      st.publicKey = none)
    ∧ (initBridge st0 pem = (st1, none) →
        encrypt st1 kb2 iv2 d2 ≠ .error .notInitializedError) := by
  constructor
  · obtain ⟨pk⟩ := st
    cases pk with
    | none => simp [encrypt]
    | some k => simp [encrypt]
  · intro hinit
    cases hdec : base64Decode (stripPem pem) with
    | none =>
      simp only [initBridge, hdec] at hinit
      simp at hinit
    | some bytes =>
      cases himp : importSpkiRsa bytes with
      | none =>
        simp only [initBridge, hdec, himp] at hinit
        simp at hinit
      | some k =>
        simp only [initBridge, hdec, himp] at hinit
        have hst1 : st1 = ⟨some k⟩ := by
          have := congrArg Prod.fst hinit
          exact this.symm
        subst hst1
        simp [encrypt]

/-- Witness for C5: a fresh instance raises the not-initialized error; an
instance produced by a successful initialize does not. -/
theorem c5_not_initialized_iff_witness :
    encrypt ⟨none⟩ wKey wIv wData = .error .notInitializedError
    ∧ encrypt ⟨some 1⟩ wKey wIv wData ≠ .error .notInitializedError :=
  ⟨(c5_not_initialized_iff ⟨none⟩ ⟨none⟩ ⟨some 1⟩ wPem wKey wIv wData wKey wIv
      wData).1.mpr rfl,
   (c5_not_initialized_iff ⟨none⟩ ⟨none⟩ ⟨some 1⟩ wPem wKey wIv wData wKey wIv
      wData).2 (by decide)⟩

/-- C6: initialize fails with InitializationError exactly when the supplied key
material is malformed or unsupported (the stripped PEM body fails base64
decoding or SPKI import); on failure the instance state is unchanged, so a
previously uninitialized cipher remains uninitialized; on success the imported
public key handle is stored. -/
theorem c6_init_error_iff (st : SecureBridge) (pem : List Nat) :
    ((initBridge st pem).2 = some .initializationError ↔
      (base64Decode (stripPem pem)).bind importSpkiRsa = none)
    ∧ ((initBridge st pem).2 ≠ none → (initBridge st pem).1 = st)
    ∧ ((initBridge st pem).2 = none →
        (initBridge st pem).1.publicKey =
          (base64Decode (stripPem pem)).bind importSpkiRsa) := by
  cases hdec : base64Decode (stripPem pem) with
  | none => simp [initBridge, hdec]
  | some bytes =>
    cases himp : importSpkiRsa bytes with
    | none => simp [initBridge, hdec, himp]
    | some k => simp [initBridge, hdec, himp]

/-- Witness for C6: a malformed one-byte input fails with the initialization
error and leaves the instance unchanged. -/
theorem c6_init_error_iff_witness :
    (initBridge ⟨none⟩ [33]).2 = some .initializationError
    ∧ (initBridge ⟨none⟩ [33]).1 = ⟨none⟩ :=
  ⟨(c6_init_error_iff ⟨none⟩ [33]).1.mpr (by decide),
   (c6_init_error_iff ⟨none⟩ [33]).2.1 (by decide)⟩

theorem promoteEntry_ver (v : Nat) (x : RegEntry) :
    (promoteEntry v x).ver = x.ver := by
  unfold promoteEntry
  split_ifs <;> rfl

theorem retireEntry_ver (v : Nat) (x : RegEntry) :
    (retireEntry v x).ver = x.ver := by
  unfold retireEntry
  split_ifs <;> rfl

theorem lookupVer_mapReg (l : List RegEntry) (g : RegEntry → RegEntry)
    (hg : ∀ x, (g x).ver = x.ver) (w : Nat) :
    lookupVer ⟨l.map g⟩ w = (lookupVer ⟨l⟩ w).map g := by
  unfold lookupVer
  dsimp only
  induction l with
  | nil => rfl
  | cons e t ih =>
    by_cases hv : e.ver = w
    · rw [List.map_cons, List.find?_cons_of_pos, List.find?_cons_of_pos]
      · rfl
      · simpa using hv
      · simp [hg, hv]
    · rw [List.map_cons, List.find?_cons_of_neg, List.find?_cons_of_neg, ih]
      · simpa using hv
      · simp [hg, hv]

theorem countP_ver_le_one (l : List RegEntry) (v : Nat)
    (hnd : (l.map RegEntry.ver).Nodup) :
    l.countP (fun e => e.ver = v) ≤ 1 := by
  induction l with
  | nil => simp
  | cons e t ih =>
    rw [List.map_cons, List.nodup_cons] at hnd
    by_cases hv : e.ver = v
    · rw [List.countP_cons_of_pos _ _ (by simpa using hv)]
      have h0 : t.countP (fun e => e.ver = v) = 0 := by
        rw [List.countP_eq_zero]
        intro x hx hxv
        simp only [decide_eq_true_eq] at hxv
        exact hnd.1 (List.mem_map.mpr ⟨x, hx, by rw [hxv, hv]⟩)
      omega
    · rw [List.countP_cons_of_neg _ _ (by simpa using hv)]
      exact ih hnd.2

theorem mapVer_promoteEntry (l : List RegEntry) (v : Nat) :
    (l.map (promoteEntry v)).map RegEntry.ver = l.map RegEntry.ver := by
  rw [List.map_map]
  congr 1
  funext x
  exact promoteEntry_ver v x

theorem mapVer_retireEntry (l : List RegEntry) (v : Nat) :
    (l.map (retireEntry v)).map RegEntry.ver = l.map RegEntry.ver := by
  rw [List.map_map]
  congr 1
  funext x
  exact retireEntry_ver v x

theorem countP_promoteEntry_active (l : List RegEntry) (v : Nat) :
    (l.map (promoteEntry v)).countP (fun e => e.state = KeyState.active_write) =
      l.countP (fun e => e.ver = v) := by
  rw [List.countP_map]
  congr 1
  funext x
  by_cases h1 : x.ver = v
  · simp [Function.comp, promoteEntry, h1]
  · by_cases h2 : x.state = KeyState.active_write
    · simp [Function.comp, promoteEntry, h1, h2]
    · simp [Function.comp, promoteEntry, h1, h2]

theorem promoteLike_inv (l : List RegEntry) (v : Nat)
    (hinv : RegInv ⟨l⟩) : RegInv ⟨l.map (promoteEntry v)⟩ := by
  obtain ⟨hnd, _⟩ := hinv
  constructor
  · rw [mapVer_promoteEntry]
    exact hnd
  · show (l.map (promoteEntry v)).countP _ ≤ 1
    rw [countP_promoteEntry_active]
    exact countP_ver_le_one l v hnd

theorem promote_inv {r r1 : KeyRegistry} {v : Nat} (h : promote r v = .ok r1)
    (hinv : RegInv r) : RegInv r1 := by
  cases hlv : lookupVer r v with
  | none => simp [promote, hlv] at h
  | some e =>
    cases hst : e.state with
    | future =>
      simp only [promote, hlv, hst] at h
      injection h with h
      subst h
      exact promoteLike_inv r.entries v hinv
    | active_write => simp [promote, hlv, hst] at h
    | decrypt_only => simp [promote, hlv, hst] at h
    | retired => simp [promote, hlv, hst] at h

theorem rollback_inv {r r1 : KeyRegistry} {v : Nat} (h : rollback r v = .ok r1)
    (hinv : RegInv r) : RegInv r1 := by
  cases hlv : lookupVer r v with
  | none => simp [rollback, hlv] at h
  | some e =>
    cases hst : e.state with
    | decrypt_only =>
      simp only [rollback, hlv, hst] at h
      injection h with h
      subst h
      exact promoteLike_inv r.entries v hinv
    | active_write => simp [rollback, hlv, hst] at h
    | future => simp [rollback, hlv, hst] at h
    | retired => simp [rollback, hlv, hst] at h

theorem retire_inv {r r1 : KeyRegistry} {v : Nat} {b : Bool}
    (h : retire r v b = .ok r1) (hinv : RegInv r) : RegInv r1 := by
  cases hlv : lookupVer r v with
  | none => simp [retire, hlv] at h
  | some e =>
    cases hst : e.state with
    | future => simp [retire, hlv, hst] at h
    | active_write => simp [retire, hlv, hst] at h
    | retired => simp [retire, hlv, hst] at h
    | decrypt_only =>
      cases b with
      | false => simp [retire, hlv, hst] at h
      | true =>
        simp only [retire, hlv, hst, if_true] at h
        injection h with h
        subst h
        obtain ⟨hnd, hcnt⟩ := hinv
        constructor
        · rw [mapVer_retireEntry]
          exact hnd
        · show (r.entries.map (retireEntry v)).countP _ ≤ 1
          rw [List.countP_map]
          have hmono : r.entries.countP
              ((fun e => decide (e.state = KeyState.active_write)) ∘ retireEntry v) ≤
              r.entries.countP (fun e => decide (e.state = KeyState.active_write)) := by
            apply List.countP_mono_left
            intro x hx hpx
            simp only [Function.comp, retireEntry] at hpx
            split_ifs at hpx with h1
            · simp at hpx
            · exact hpx
          exact le_trans hmono hcnt

theorem provision_inv {r r1 : KeyRegistry} {v m : Nat}
    (h : provision r v m = .ok r1) (hinv : RegInv r) : RegInv r1 := by
  cases hlv : lookupVer r v with
  | some e => simp [provision, hlv] at h
  | none =>
    simp only [provision, hlv] at h
    injection h with h
    subst h
    obtain ⟨hnd, hcnt⟩ := hinv
    unfold lookupVer at hlv
    rw [List.find?_eq_none] at hlv
    constructor
    · rw [List.map_append, List.nodup_append]
      refine ⟨hnd, by simp, ?_⟩
      intro a ha hb
      simp only [List.map_cons, List.map_nil, List.mem_singleton] at hb
      obtain ⟨x, hx, rfl⟩ := List.mem_map.mp ha
      exact hlv x hx (by simpa using hb)
    · show (r.entries ++ [RegEntry.mk v KeyState.future m]).countP _ ≤ 1
      rw [List.countP_append]
      simpa using hcnt

theorem regReachable_inv (r : KeyRegistry) (h : RegReachable r) : RegInv r := by
  induction h with
  | empty =>
    constructor
    · simp
    · simp [countActive]
  | step hreach hstep ih =>
    cases hstep with
    | stepProvision hop => exact provision_inv hop ih
    | stepPromote hop => exact promote_inv hop ih
    | stepRetire hop => exact retire_inv hop ih
    | stepRollback hop => exact rollback_inv hop ih

theorem lookupVer_mapReg2 (r : KeyRegistry) (g : RegEntry → RegEntry)
    (hg : ∀ x, (g x).ver = x.ver) (w : Nat) :
    lookupVer ⟨r.entries.map g⟩ w = (lookupVer r w).map g :=
  lookupVer_mapReg r.entries g hg w

theorem lookupVer_ver {r : KeyRegistry} {w : Nat} {e : RegEntry}
    (h : lookupVer r w = some e) : e.ver = w := by
  unfold lookupVer at h
  have h1 := List.find?_some h
  simpa using h1

theorem promote_semantics {r r1 : KeyRegistry} {v : Nat}
    (h : promote r v = .ok r1) :
    (lookupVer r v).map RegEntry.state = some KeyState.future
    ∧ (lookupVer r1 v).map RegEntry.state = some KeyState.active_write
    ∧ ∀ w e, lookupVer r w = some e → w ≠ v →
        e.state = KeyState.active_write →
        (lookupVer r1 w).map RegEntry.state = some KeyState.decrypt_only := by
  cases hlv : lookupVer r v with
  | none => simp [promote, hlv] at h
  | some e =>
    cases hst : e.state with
    | future =>
      simp only [promote, hlv, hst] at h
      injection h with h
      subst h
      have hev : e.ver = v := lookupVer_ver hlv
      refine ⟨by simp [hlv, hst], ?_, ?_⟩
      · rw [lookupVer_mapReg2 r _ (promoteEntry_ver v) v, hlv]
        simp [promoteEntry, hev]
      · intro w e2 hw hwv hact
        rw [lookupVer_mapReg2 r _ (promoteEntry_ver v) w, hw]
        have hev2 : e2.ver = w := lookupVer_ver hw
        simp [promoteEntry, hev2, hwv, hact]
    | active_write => simp [promote, hlv, hst] at h
    | decrypt_only => simp [promote, hlv, hst] at h
    | retired => simp [promote, hlv, hst] at h

theorem promoteEntry_rank_le {v : Nat} {x : RegEntry}
    (hx : x.ver = v → x.state = KeyState.future) :
    rank x.state ≤ rank (promoteEntry v x).state := by
  unfold promoteEntry
  split_ifs with h1 h2
  · rw [hx h1]
    simp [rank]
  · rw [h2]
    simp [rank]
  · exact le_refl _

theorem promoteEntry_rank_rollback {v : Nat} {x : RegEntry}
    (hx : x.ver = v → x.state = KeyState.decrypt_only) :
    rank x.state ≤ rank (promoteEntry v x).state
    ∨ (x.ver = v ∧ x.state = KeyState.decrypt_only
        ∧ (promoteEntry v x).state = KeyState.active_write) := by
  unfold promoteEntry
  split_ifs with h1 h2
  · right
    exact ⟨h1, hx h1, rfl⟩
  · left
    rw [h2]
    simp [rank]
  · left
    exact le_refl _

theorem retireEntry_rank_le {v : Nat} {x : RegEntry}
    (hx : x.ver = v → x.state = KeyState.decrypt_only) :
    rank x.state ≤ rank (retireEntry v x).state := by
  unfold retireEntry
  split_ifs with h1
  · rw [hx h1]
    simp [rank]
  · exact le_refl _

theorem promote_rank {r r1 : KeyRegistry} {v : Nat} (h : promote r v = .ok r1)
    {w : Nat} {e e1 : RegEntry} (he : lookupVer r w = some e)
    (he1 : lookupVer r1 w = some e1) : rank e.state ≤ rank e1.state := by
  cases hlv : lookupVer r v with
  | none => simp [promote, hlv] at h
  | some ev =>
    cases hst : ev.state with
    | future =>
      simp only [promote, hlv, hst] at h
      injection h with h
      subst h
      rw [lookupVer_mapReg2 r _ (promoteEntry_ver v) w, he] at he1
      injection he1 with he1
      subst he1
      apply promoteEntry_rank_le
      intro hev
      have hew : e.ver = w := lookupVer_ver he
      have hwv : w = v := by rw [← hew, hev]
      subst hwv
      rw [he] at hlv
      injection hlv with hlv
      rw [hlv]
      exact hst
    | active_write => simp [promote, hlv, hst] at h
    | decrypt_only => simp [promote, hlv, hst] at h
    | retired => simp [promote, hlv, hst] at h

theorem retire_rank {r r1 : KeyRegistry} {v : Nat} {b : Bool}
    (h : retire r v b = .ok r1) {w : Nat} {e e1 : RegEntry}
    (he : lookupVer r w = some e) (he1 : lookupVer r1 w = some e1) :
    rank e.state ≤ rank e1.state := by
  cases hlv : lookupVer r v with
  | none => simp [retire, hlv] at h
  | some ev =>
    cases hst : ev.state with
    | future => simp [retire, hlv, hst] at h
    | active_write => simp [retire, hlv, hst] at h
    | retired => simp [retire, hlv, hst] at h
    | decrypt_only =>
      cases b with
      | false => simp [retire, hlv, hst] at h
      | true =>
        simp only [retire, hlv, hst, if_true] at h
        injection h with h
        subst h
        rw [lookupVer_mapReg2 r _ (retireEntry_ver v) w, he] at he1
        injection he1 with he1
        subst he1
        apply retireEntry_rank_le
        intro hev
        have hew : e.ver = w := lookupVer_ver he
        have hwv : w = v := by rw [← hew, hev]
        subst hwv
        rw [he] at hlv
        injection hlv with hlv
        rw [hlv]
        exact hst

theorem provision_rank {r r1 : KeyRegistry} {v m : Nat}
    (h : provision r v m = .ok r1) {w : Nat} {e e1 : RegEntry}
    (he : lookupVer r w = some e) (he1 : lookupVer r1 w = some e1) :
    rank e.state ≤ rank e1.state := by
  cases hlv : lookupVer r v with
  | some ev => simp [provision, hlv] at h
  | none =>
    simp only [provision, hlv] at h
    injection h with h
    subst h
    unfold lookupVer at he he1
    rw [List.find?_append, he] at he1
    simp only [Option.or] at he1
    injection he1 with he1
    rw [he1]

theorem rollback_rank {r r1 : KeyRegistry} {v : Nat} (h : rollback r v = .ok r1)
    {w : Nat} {e e1 : RegEntry} (he : lookupVer r w = some e)
    (he1 : lookupVer r1 w = some e1) :
    rank e.state ≤ rank e1.state
    ∨ (w = v ∧ e.state = KeyState.decrypt_only
        ∧ e1.state = KeyState.active_write) := by
  cases hlv : lookupVer r v with
  | none => simp [rollback, hlv] at h
  | some ev =>
    cases hst : ev.state with
    | future => simp [rollback, hlv, hst] at h
    | active_write => simp [rollback, hlv, hst] at h
    | retired => simp [rollback, hlv, hst] at h
    | decrypt_only =>
      simp only [rollback, hlv, hst] at h
      injection h with h
      subst h
      rw [lookupVer_mapReg2 r _ (promoteEntry_ver v) w, he] at he1
      injection he1 with he1
      subst he1
      have hew : e.ver = w := lookupVer_ver he
      have hx : e.ver = v → e.state = KeyState.decrypt_only := by
        intro hev
        have hwv : w = v := by rw [← hew, hev]
        subst hwv
        rw [he] at hlv
        injection hlv with hlv
        rw [hlv]
        exact hst
      rcases promoteEntry_rank_rollback hx with h1 | ⟨h1, h2, h3⟩
      · exact Or.inl h1
      · refine Or.inr ⟨?_, h2, h3⟩
        rw [← hew, h1]

/-- C7: in every reachable registry state at most one version is active_write;
promote moves a future version to active_write while atomically demoting any
prior active_write to decrypt_only; and under promote, retire, and provisioning
every version only moves forward through
future, active_write, decrypt_only, retired, while the operator rollback may
move exactly the rolled-back version from decrypt_only back to active_write. -/
theorem c7_registry_lifecycle :
    (∀ r : KeyRegistry, RegReachable r → countActive r ≤ 1)
    ∧ (∀ (r r1 : KeyRegistry) (v : Nat), promote r v = .ok r1 →
        (lookupVer r v).map RegEntry.state = some KeyState.future
        ∧ (lookupVer r1 v).map RegEntry.state = some KeyState.active_write
        ∧ ∀ w e, lookupVer r w = some e → w ≠ v →
            e.state = KeyState.active_write →
            (lookupVer r1 w).map RegEntry.state = some KeyState.decrypt_only)
    ∧ (∀ (r r1 : KeyRegistry) (v : Nat), promote r v = .ok r1 →
        ∀ w e e1, lookupVer r w = some e → lookupVer r1 w = some e1 →
          rank e.state ≤ rank e1.state)
    ∧ (∀ (r r1 : KeyRegistry) (v : Nat) (b : Bool), retire r v b = .ok r1 →
        ∀ w e e1, lookupVer r w = some e → lookupVer r1 w = some e1 →
          rank e.state ≤ rank e1.state)
    ∧ (∀ (r r1 : KeyRegistry) (v m : Nat), provision r v m = .ok r1 →
        ∀ w e e1, lookupVer r w = some e → lookupVer r1 w = some e1 →
          rank e.state ≤ rank e1.state)
    ∧ (∀ (r r1 : KeyRegistry) (v : Nat), rollback r v = .ok r1 →
        ∀ w e e1, lookupVer r w = some e → lookupVer r1 w = some e1 →
          rank e.state ≤ rank e1.state
          ∨ (w = v ∧ e.state = KeyState.decrypt_only
              ∧ e1.state = KeyState.active_write)) :=
  ⟨fun r h => (regReachable_inv r h).2,
   fun _ _ _ h => promote_semantics h,
   fun _ _ _ h _ _ _ he he1 => promote_rank h he he1,
   fun _ _ _ _ h _ _ _ he he1 => retire_rank h he he1,
   fun _ _ _ _ h _ _ _ he he1 => provision_rank h he he1,
   fun _ _ _ h _ _ _ he he1 => rollback_rank h he he1⟩

/-- Witness for C7: a concrete reachable registry built by two provisionings
and two promotions satisfies the invariant, and the second promote left
version 2 active_write. -/
theorem c7_registry_lifecycle_witness :
    countActive wRegD ≤ 1
    ∧ (lookupVer wRegD 2).map RegEntry.state = some KeyState.active_write :=
  ⟨c7_registry_lifecycle.1 wRegD
    (RegReachable.step
      (RegReachable.step
        (RegReachable.step
          (RegReachable.step RegReachable.empty
            (RegStep.stepProvision
              (show provision ⟨[]⟩ 1 5 = .ok wRegA by decide)))
          (RegStep.stepPromote (show promote wRegA 1 = .ok wRegB by decide)))
        (RegStep.stepProvision
          (show provision wRegB 2 6 = .ok wRegC by decide)))
      (RegStep.stepPromote (show promote wRegC 2 = .ok wRegD by decide))),
   (c7_registry_lifecycle.2.1 wRegC wRegD 2
      (show promote wRegC 2 = .ok wRegD by decide)).2.1⟩

theorem condWrite_zero {s : Store} {rid expectedVer : Nat}
    {newRec : StoredRecord}
    (h : ∀ r0, lookupRec s rid = some r0 → r0.dek_version ≠ expectedVer) :
    condWrite s rid expectedVer newRec = (s, 0) := by
  cases hf : s.recs.find? (fun p => p.1 = rid) with
  | none => simp [condWrite, hf]
  | some pr =>
    simp only [condWrite, hf]
    rw [if_neg]
    apply h pr.2
    unfold lookupRec
    rw [hf]
    rfl

theorem processOne_conflict {reg : KeyRegistry} {srcVer batchId now : Nat}
    {rand : List Nat × List Nat} {s : Store} {rec : Nat × StoredRecord}
    {m : Nat} {pt : List Nat} {wvm : Nat × Nat} {p1 : EncryptedPayload}
    (hres : resolveForRead reg rec.2.dek_version = .ok m)
    (hun : unsealEnvelope m rec.2.payload = .ok pt)
    (hw : resolveForWrite reg = .ok wvm)
    (henc : encrypt ⟨some wvm.2⟩ rand.1 rand.2 pt = .ok p1)
    (hver : ∀ r0, lookupRec s rec.1 = some r0 → r0.dek_version ≠ srcVer) :
    processOne reg srcVer batchId now rand s rec = (s, .conflictSkipped) := by
  simp [processOne, hres, hun, hw, henc, condWrite_zero hver]

theorem processOne_failed_store {reg : KeyRegistry} {srcVer batchId now : Nat}
    {rand : List Nat × List Nat} {s : Store} {rec : Nat × StoredRecord}
    (h : (processOne reg srcVer batchId now rand s rec).2 = .failed) :
    (processOne reg srcVer batchId now rand s rec).1 = s := by
  cases h1 : resolveForRead reg rec.2.dek_version with
  | error e1 => simp [processOne, h1]
  | ok m =>
    cases h2 : unsealEnvelope m rec.2.payload with
    | error e2 => simp [processOne, h1, h2]
    | ok pt =>
      cases h3 : resolveForWrite reg with
      | error e3 => simp [processOne, h1, h2, h3]
      | ok wvm =>
        cases h4 : encrypt ⟨some wvm.2⟩ rand.1 rand.2 pt with
        | error e4 => simp [processOne, h1, h2, h3, h4]
        | ok p1 =>
          exfalso
          simp only [processOne, h1, h2, h3, h4] at h
          by_cases h5 :
              (condWrite s rec.1 srcVer ⟨p1, wvm.1, some now, some batchId⟩).2 = 0
          · simp [h5] at h
          · simp [h5] at h

theorem runBatch_failed_cons {reg : KeyRegistry} {srcVer batchId now : Nat}
    {rand : List Nat × List Nat} {s : Store} {rec : Nat × StoredRecord}
    (rest : List ((Nat × StoredRecord) × (List Nat × List Nat)))
    (h : (processOne reg srcVer batchId now rand s rec).2 = .failed) :
    runBatch reg srcVer batchId now s ((rec, rand) :: rest) =
      ((runBatch reg srcVer batchId now s rest).1,
        bumpStats .failed (runBatch reg srcVer batchId now s rest).2) := by
  have hs := processOne_failed_store h
  have hp : processOne reg srcVer batchId now rand s rec = (s, .failed) :=
    Prod.ext hs h
  simp [runBatch, hp]

/-- C8: a conditional write that affects zero rows leaves the store unchanged
and the record counts as a conflict skip, which does not touch the failure
counter (success, not an error); a record whose processing fails leaves the
store untouched; and a failing record does not abort the batch: the rest of the
batch runs against the unchanged store with only the failure counter bumped. -/
theorem c8_worker_record_isolation :
    (∀ (s : Store) (rid expectedVer : Nat) (newRec : StoredRecord),
      (∀ r0, lookupRec s rid = some r0 → r0.dek_version ≠ expectedVer) →
      condWrite s rid expectedVer newRec = (s, 0))
    ∧ (∀ (reg : KeyRegistry) (srcVer batchId now : Nat)
        (rand : List Nat × List Nat) (s : Store) (rec : Nat × StoredRecord)
        (m : Nat) (pt : List Nat) (wvm : Nat × Nat) (p1 : EncryptedPayload),
        resolveForRead reg rec.2.dek_version = .ok m →
        unsealEnvelope m rec.2.payload = .ok pt →
        resolveForWrite reg = .ok wvm →
        encrypt ⟨some wvm.2⟩ rand.1 rand.2 pt = .ok p1 →
        (∀ r0, lookupRec s rec.1 = some r0 → r0.dek_version ≠ srcVer) →
        processOne reg srcVer batchId now rand s rec = (s, .conflictSkipped))
    ∧ (∀ st : WorkerStats,
        (bumpStats .conflictSkipped st).failures = st.failures)
    ∧ (∀ (reg : KeyRegistry) (srcVer batchId now : Nat)
        (rand : List Nat × List Nat) (s : Store) (rec : Nat × StoredRecord),
        (processOne reg srcVer batchId now rand s rec).2 = .failed →
        (processOne reg srcVer batchId now rand s rec).1 = s)
    ∧ (∀ (reg : KeyRegistry) (srcVer batchId now : Nat)
        (rand : List Nat × List Nat) (s : Store) (rec : Nat × StoredRecord)
        (rest : List ((Nat × StoredRecord) × (List Nat × List Nat))),
        (processOne reg srcVer batchId now rand s rec).2 = .failed →
        runBatch reg srcVer batchId now s ((rec, rand) :: rest) =
          ((runBatch reg srcVer batchId now s rest).1,
            bumpStats .failed (runBatch reg srcVer batchId now s rest).2)) :=
  ⟨fun _ _ _ _ h => condWrite_zero h,
   fun _ _ _ _ _ _ _ _ _ _ _ hres hun hw henc hver =>
     processOne_conflict hres hun hw henc hver,
   fun _ => rfl,
   fun _ _ _ _ _ _ _ h => processOne_failed_store h,
   fun _ _ _ _ _ _ _ rest h => runBatch_failed_cons rest h⟩

/-- Witness for C8: a record with a corrupted envelope fails to unseal, leaves
the one-record store untouched, and does not abort the remaining batch. -/
theorem c8_worker_record_isolation_witness :
    (processOne wRegD 1 99 7 (wKey, wIv) wStore (1, wRec0)).1 = wStore
    ∧ runBatch wRegD 1 99 7 wStore [((1, wRec0), (wKey, wIv))] =
      ((runBatch wRegD 1 99 7 wStore []).1,
        bumpStats .failed (runBatch wRegD 1 99 7 wStore []).2) :=
  ⟨c8_worker_record_isolation.2.2.2.1 wRegD 1 99 7 (wKey, wIv) wStore
     (1, wRec0) (by decide),
   c8_worker_record_isolation.2.2.2.2 wRegD 1 99 7 (wKey, wIv) wStore
     (1, wRec0) [] (by decide)⟩

/-- C9: the instance states of two independent SecureBridge objects evolve
independently under any interleaved trace of operations: each side ends in the
state its own operation sub-sequence produces, and the observable encrypt
behaviour of one instance is as if the operations of the other instance never
happened. No module-level mutable state couples them. -/
theorem c9_instance_isolation (s1 s2 : SecureBridge) (tr : List WorldOp) :
    (runWorld (s1, s2) tr).1 = runOps s1 (projFst tr)
    ∧ (runWorld (s1, s2) tr).2 = runOps s2 (projSnd tr)
    ∧ (∀ keyBytes ivBytes data,
        encrypt (runWorld (s1, s2) tr).1 keyBytes ivBytes data =
          encrypt (runOps s1 (projFst tr)) keyBytes ivBytes data) := by
  induction tr generalizing s1 s2 with
  | nil => exact ⟨rfl, rfl, fun _ _ _ => rfl⟩
  | cons op rest ih =>
    cases op with
    | toFst op => exact ih (applyOp s1 op) s2
    | toSnd op => exact ih s1 (applyOp s2 op)

/-- C10: decoding after encoding returns exactly the original bytes, so the two
base64 helpers used for every payload field form a round trip. -/
theorem c10_base64_roundtrip (b : List Nat) (h : ∀ x ∈ b, x < 256) :
    base64Decode (base64Encode b) = some b :=
  base64_roundtrip b h

/-- Witness for C10 at concrete bytes covering a padded tail. -/
theorem c10_base64_roundtrip_witness :
    base64Decode (base64Encode [0, 77, 255, 10]) = some [0, 77, 255, 10] :=
  c10_base64_roundtrip [0, 77, 255, 10] (by decide)

end SecureBridgeModel
